import Mathlib

/-!
Verification of the StorageManager core of arc-waders (src/app.js).

`StorageManager` wraps browser `localStorage` with JSON serialisation, a fixed
namespace prefix, per-key debounce timers and a publish/subscribe registry.
This file shallowly embeds that module and settles the frozen claims about it.

Modelling choices:

* A physical stored value (`Raw`) is a raw string quotiented by how
  `JSON.parse` treats it: `Raw.good v` stands for any string that parses to
  the JSON value `v`, `Raw.bad s` for a string `s` that makes `JSON.parse`
  throw.  `JSON.stringify` of a JSON value always produces a parseable,
  non-empty string, hence `Raw.good`.  JavaScript truthiness of a raw string
  (`raw ? ... : ...` in `get`) is: `null`/absent and `""` are falsy,
  everything else truthy; a parseable JSON text is never empty.
* `localStorage` is an association list of physical keys to raw values plus
  two fault flags: `readFails` (storage disabled: any read access throws)
  and `writeFails` (quota exceeded: `setItem` throws).
* Values passed to `set` (`SetVal`) are either JSON-serialisable (`ser v`)
  or non-serialisable (`cyclic`), in which case `JSON.stringify` throws.
* Subscriber handler functions are identified by `Nat` tokens; JavaScript's
  `fn !== handler` reference comparison is equality of tokens.
* Timer callbacks are not modelled by real time: `set` with a truthy
  debounce records the pending value in the timer table (replacing any
  pending entry for the key, as `clearTimeout` + `timers.set` does), and the
  explicit step `fireTimer` plays the role of the timer callback firing.
* Observable events (`Ev`): subscriber invocations (`note`) and the
  console.warn calls of the catch blocks (`warnWrite`).  Operations return
  the state they produce together with the list of events they emit, in
  order; an operation that would let an exception escape to the caller is
  modelled with `Except`.
-/

/-- A JSON value: the JSON-serialisable values of the store. -/
inductive JsonVal where
  | null : JsonVal
  | bool (b : Bool) : JsonVal
  | num (n : Int) : JsonVal
  | str (s : String) : JsonVal
  | arr (xs : List JsonVal) : JsonVal
  | obj (fields : List (String × JsonVal)) : JsonVal

/-- A raw physical value: a string, quotiented by how `JSON.parse` treats it.
`good v` is a string parsing to `v`; `bad s` is a string `s` on which
`JSON.parse` throws. -/
inductive Raw where
  | good (v : JsonVal) : Raw
  | bad (s : String) : Raw

/-- JavaScript truthiness of a raw string.  A parseable JSON text is never
empty, so `good` values are truthy; a `bad` string is truthy iff non-empty. -/
def Raw.truthy : Raw → Bool
  | .good _ => true
  | .bad s => !s.isEmpty

/-- Model of JSON.parse on a stored raw string: `none` means it throws. -/
def parseJson : Raw → Option JsonVal
  | .good v => some v
  | .bad _ => none

/-- A value passed to `set`/`commit`/`hydrate`: either JSON-serialisable or
not (e.g. a cyclic structure, on which `JSON.stringify` throws). -/
inductive SetVal where
  | ser (v : JsonVal) : SetVal
  | cyclic : SetVal

/-- Model of JSON.stringify: throws (`Except.error`) on a non-serialisable value. -/
def stringifyE : SetVal → Except Unit Raw
  | .ser v => .ok (.good v)
  | .cyclic => .error ()

/-- Association-list lookup by string key (first match). -/
def findVal (k : String) : List (String × β) → Option β
  | [] => none
  | (k', v) :: rest => if k' = k then some v else findVal k rest

/-- Association-list update: replace the first binding of `k` in place, or
append a new binding (`Map.set` / `localStorage.setItem` semantics). -/
def putVal (k : String) (v : β) : List (String × β) → List (String × β)
  | [] => [(k, v)]
  | (k', v') :: rest =>
      if k' = k then (k, v) :: rest else (k', v') :: putVal k v rest

/-- Association-list deletion of every binding of `k` (`Map.delete`). -/
def delVal (k : String) : List (String × β) → List (String × β)
  | [] => []
  | (k', v') :: rest =>
      if k' = k then delVal k rest else (k', v') :: delVal k rest

/-- The keys of an association list are pairwise distinct (the `Map` /
`localStorage` invariant). -/
def keysNodup (l : List (String × β)) : Prop := (l.map Prod.fst).Nodup

/-- The physical storage: `localStorage` as seen by the store, plus fault
flags injecting the storage-layer failures the code catches. -/
structure PhysStorage where
  items : List (String × Raw)
  readFails : Bool
  writeFails : Bool

/-- Model of localStorage.getItem: throws when storage is disabled, otherwise
returns the stored raw string or null (`none`). -/
def getItem (s : PhysStorage) (k : String) : Except Unit (Option Raw) :=
  if s.readFails then .error () else .ok (findVal k s.items)

/-- Model of localStorage.setItem: throws on quota/disabled storage, otherwise
stores the raw value under the key. -/
def setItem (s : PhysStorage) (k : String) (v : Raw) : Except Unit PhysStorage :=
  if s.writeFails then .error ()
  else .ok { s with items := putVal k v s.items }

/-- The in-memory state of `StorageManager`: the physical storage, the
subscriber registry (`Map` from logical key to handler list, handlers as
`Nat` tokens) and the debounce-timer table (`Map` from logical key to the
pending value that the scheduled callback would commit). -/
structure SMState where
  storage : PhysStorage
  subscribers : List (String × List Nat)
  timers : List (String × SetVal)

/-- Observable events: a subscriber invocation with the committed value, or
the console.warn diagnostic emitted by the catch block of `commit`. -/
inductive Ev where
  | note (h : Nat) (v : SetVal) : Ev
  | warnWrite : Ev

/-- Whether an event is a subscriber invocation. -/
def Ev.isNote : Ev → Bool
  | .note _ _ => true
  | .warnWrite => false

/-- The fixed namespace constant `prefix` of `src/app.js`. -/
def pfx : String := "arc-raiders-tracker"

/-- The namespace constant followed by a colon, the string `snapshot` strips
from physical keys. -/
def pfxColon : String := "arc-raiders-tracker:"

/-- Function buildKey of the source: physical key for a logical key. -/
def buildKey (key : String) : String := pfx ++ ":" ++ key

/-- Function notify of the source: invoke every handler registered for `key`, in
registration order, with the value.  (An absent entry means no handlers; the
registry never holds an empty list, but even then `forEach` would do
nothing.) -/
def notify (st : SMState) (key : String) (value : SetVal) : List Ev :=
  match findVal key st.subscribers with
  | none => []
  | some hs => hs.map (fun h => Ev.note h value)

/-- Function get of the source: read the physical key inside try, parse if the
raw value is truthy, return the fallback on `null`/empty/any caught error.
The result is the parsed JSON value (`Sum.inl`) or the very fallback the
caller supplied (`Sum.inr`); the function is total (never throws) and takes
no storage it could modify along. -/
def SM.get (st : SMState) (key : String) (fallback : α) : JsonVal ⊕ α :=
  match getItem st.storage (buildKey key) with
  | .error _ => .inr fallback
  | .ok none => .inr fallback
  | .ok (some raw) =>
      if raw.truthy then
        match parseJson raw with
        | some v => .inl v
        | none => .inr fallback
      else .inr fallback

/-- Function commit of the source: inside try, serialise the value and write
it under the built key, warning on any caught error; then unconditionally
notify.  Both a serialisation error and a storage write error land in the
same catch block. -/
def commit (st : SMState) (key : String) (value : SetVal) : SMState × List Ev :=
  let wr : SMState × List Ev :=
    match stringifyE value with
    | .error _ => (st, [Ev.warnWrite])
    | .ok raw =>
        match setItem st.storage (buildKey key) raw with
        | .error _ => (st, [Ev.warnWrite])
        | .ok s' => ({ st with storage := s' }, [])
  (wr.1, wr.2 ++ notify wr.1 key value)

/-- Function set of the source: truthy debounce clears any pending
timer for the key and schedules a new one closing over `value`; falsy
debounce commits synchronously.  (`clearTimeout` + `timers.set` collapse to
replacing the key's entry in the timer table.) -/
def SM.set (st : SMState) (key : String) (value : SetVal) (debounce : Nat) :
    SMState × List Ev :=
  if debounce = 0 then commit st key value
  else ({ st with timers := putVal key value st.timers }, [])

/-- The scheduled timer callback firing for `key`: commits the pending value
and deletes the key's timer entry.  No pending timer, no effect. -/
def fireTimer (st : SMState) (key : String) : SMState × List Ev :=
  match findVal key st.timers with
  | none => (st, [])
  | some v =>
      let r := commit st key v
      ({ r.1 with timers := delVal key r.1.timers }, r.2)

/-- Function subscribe of the source: push the handler onto the list of the
key (created on demand). -/
def subscribe (st : SMState) (key : String) (h : Nat) : SMState :=
  let list := ((findVal key st.subscribers).getD []) ++ [h]
  { st with subscribers := putVal key list st.subscribers }

/-- The unsubscribe closure returned by `subscribe`: filter the key's
current list by `fn !== handler`; keep the filtered list if non-empty,
delete the key's entry otherwise. -/
def unsubscribe (st : SMState) (key : String) (h : Nat) : SMState :=
  let next := ((findVal key st.subscribers).getD []).filter (fun f => f ≠ h)
  if next.isEmpty then { st with subscribers := delVal key st.subscribers }
  else { st with subscribers := putVal key next st.subscribers }

/-- Strip the first occurrence of `pat` from `l` (JavaScript
`String.prototype.replace` with a string pattern and empty replacement). -/
def dropFirstOcc (pat : List Char) : List Char → List Char
  | [] => []
  | c :: rest =>
      if pat.isPrefixOf (c :: rest) then (c :: rest).drop pat.length
      else c :: dropFirstOcc pat rest

/-- JavaScript String.prototype.replace with a string pattern and the empty
string as replacement: only the first occurrence is removed. -/
def jsReplaceFirst (s pat : String) : String := ⟨dropFirstOcc pat.data s.data⟩

/-- JavaScript String.prototype.startsWith. -/
def strStarts (s p : String) : Bool := p.data.isPrefixOf s.data

/-- The JSON value a raw string denotes (the `snapshot` parse); `bad`
strings throw instead, so any value serves as default. -/
def rawVal : Raw → JsonVal
  | .good v => v
  | .bad _ => .null

/-- The JSON value `snapshot` records for a physical key whose stored value
parses: used to express the result of the enumeration. -/
def valAt (items : List (String × Raw)) (k : String) : JsonVal :=
  match findVal k items with
  | some (Raw.good v) => v
  | _ => JsonVal.null

/-- The `forEach` body of `snapshot` over the filtered physical keys:
`data[shortKey] = JSON.parse(localStorage.getItem(key))`, with a parse
failure throwing out of the whole enumeration.  `JSON.parse(null)` (a key
deleted mid-enumeration; unreachable here) yields `null`. -/
def snapGo (items : List (String × Raw)) :
    List String → List (String × JsonVal) → Except Unit (List (String × JsonVal))
  | [], acc => .ok acc
  | k :: ks, acc =>
      let shortKey := jsReplaceFirst k pfxColon
      match findVal k items with
      | none => snapGo items ks (putVal shortKey JsonVal.null acc)
      | some raw =>
          match parseJson raw with
          | none => .error ()
          | some v => snapGo items ks (putVal shortKey v acc)

/-- Function snapshot of the source: enumerate the physical keys, keep the
keys that start with the bare namespace constant (not the colon form), strip the
first occurrence of `prefix + ":"` from each and parse its stored value.
Accessing disabled storage, or a parse failure, throws (`Except.error`). -/
def snapshot (st : SMState) : Except Unit (List (String × JsonVal)) :=
  if st.storage.readFails then .error ()
  else
    snapGo st.storage.items
      ((st.storage.items.map Prod.fst).filter (fun k => strStarts k pfx)) []

/-- Function hydrate of the source: commit each entry of the mapping in
iteration order, accumulating the events. -/
def hydrate (st : SMState) (data : List (String × SetVal)) : SMState × List Ev :=
  data.foldl
    (fun acc kv =>
      let r := commit acc.1 kv.1 kv.2
      (r.1, acc.2 ++ r.2))
    (st, [])

/-! Concrete sample states used to instantiate the results below. -/

/-- A state with working storage, empty, and one subscriber (token 7) on
logical key `k`. -/
def sampleSub : SMState := ⟨⟨[], false, false⟩, [("k", [7])], []⟩

/-- A completely fresh state with working storage. -/
def sampleEmpty : SMState := ⟨⟨[], false, false⟩, [], []⟩

/-- A state whose storage rejects writes (quota exceeded), with one
subscriber on `k` and a pending debounced write for `k`. -/
def sampleWriteFail : SMState :=
  ⟨⟨[], false, true⟩, [("k", [7])], [("k", SetVal.ser JsonVal.null)]⟩

/-- A storage state holding a foreign physical key that begins with the bare
namespace constant but is not of the prefix-colon form. -/
def sampleForeign : SMState :=
  ⟨⟨[("arc-raiders-trackerX", Raw.good (JsonVal.num 1))], false, false⟩, [], []⟩

/-- A storage state holding, under the namespace, a physical value that is
not valid JSON. -/
def sampleBad : SMState :=
  ⟨⟨[("arc-raiders-tracker:k", Raw.bad "oops")], false, false⟩, [], []⟩

/-- A storage state whose only physical key is a well-formed namespaced key
with a well-formed JSON value. -/
def sampleProper : SMState :=
  ⟨⟨[("arc-raiders-tracker:a", Raw.good (JsonVal.bool true))], false, false⟩, [], []⟩

/-- A storage state holding the JSON number 5 under the physical key built
from logical key `k`. -/
def sampleStored : SMState :=
  ⟨⟨[("arc-raiders-tracker:k", Raw.good (JsonVal.num 5))], false, false⟩, [], []⟩

/-- A state with disabled storage: every read access throws. -/
def sampleReadFail : SMState := ⟨⟨[], true, false⟩, [], []⟩

/-! Association-list lemmas. -/

theorem findVal_putVal_self (k : String) (v : β) (l : List (String × β)) :
    findVal k (putVal k v l) = some v := by
  induction l with
  | nil => simp [putVal, findVal]
  | cons p rest ih =>
      obtain ⟨k', v'⟩ := p
      by_cases h : k' = k <;> simp [putVal, findVal, h, ih]

theorem findVal_putVal_ne (k q : String) (v : β) (l : List (String × β))
    (hne : q ≠ k) : findVal q (putVal k v l) = findVal q l := by
  have hkq : k ≠ q := fun h => hne h.symm
  induction l with
  | nil => simp [putVal, findVal, hkq]
  | cons p rest ih =>
      obtain ⟨k', v'⟩ := p
      by_cases h : k' = k
      · subst h
        simp [putVal, findVal, hkq]
      · simp [putVal, findVal, h, ih]

theorem findVal_delVal_self (k : String) (l : List (String × β)) :
    findVal k (delVal k l) = none := by
  induction l with
  | nil => simp [delVal, findVal]
  | cons p rest ih =>
      obtain ⟨k', v'⟩ := p
      by_cases h : k' = k <;> simp [delVal, findVal, h, ih]

theorem findVal_append_none (k : String) (l₁ l₂ : List (String × β))
    (h : findVal k l₁ = none) : findVal k (l₁ ++ l₂) = findVal k l₂ := by
  induction l₁ with
  | nil => simp
  | cons p rest ih =>
      obtain ⟨k', v'⟩ := p
      by_cases hk : k' = k
      · simp [findVal, hk] at h
      · simp only [findVal, hk, if_false, List.cons_append, if_neg hk] at h ⊢
        exact ih h

theorem putVal_fresh (k : String) (v : β) (l : List (String × β))
    (h : findVal k l = none) : putVal k v l = l ++ [(k, v)] := by
  induction l with
  | nil => simp [putVal]
  | cons p rest ih =>
      obtain ⟨k', v'⟩ := p
      by_cases hk : k' = k
      · simp [findVal, hk] at h
      · simp only [findVal, if_neg hk] at h
        simp [putVal, hk, ih h]

theorem findVal_mem (k : String) (r : β) (l : List (String × β))
    (h : findVal k l = some r) : (k, r) ∈ l := by
  induction l with
  | nil => simp [findVal] at h
  | cons p rest ih =>
      obtain ⟨k', v'⟩ := p
      by_cases hk : k' = k
      · subst hk
        simp [findVal] at h
        subst h
        exact List.mem_cons_self _ _
      · simp only [findVal, if_neg hk] at h
        exact List.mem_cons_of_mem _ (ih h)

theorem findVal_of_mem_nodup (k : String) (r : β) (l : List (String × β))
    (hnd : keysNodup l) (hm : (k, r) ∈ l) : findVal k l = some r := by
  induction l with
  | nil => simp at hm
  | cons p rest ih =>
      obtain ⟨k', v'⟩ := p
      rw [keysNodup, List.map_cons, List.nodup_cons] at hnd
      rcases List.mem_cons.mp hm with h | h
      · rw [Prod.mk.injEq] at h
        obtain ⟨h1, h2⟩ := h
        subst h1; subst h2
        simp [findVal]
      · have hk : k' ≠ k := by
          rintro rfl
          exact hnd.1 (List.mem_map.mpr ⟨(k', r), h, rfl⟩)
        simp only [findVal, if_neg hk]
        exact ih hnd.2 h

theorem mem_keys_putVal (a k : String) (v : β) (l : List (String × β)) :
    a ∈ (putVal k v l).map Prod.fst ↔ a = k ∨ a ∈ l.map Prod.fst := by
  induction l with
  | nil => simp [putVal]
  | cons p rest ih =>
      obtain ⟨k', v'⟩ := p
      by_cases h : k' = k
      · subst h
        simp [putVal]
      · simp [putVal, h, ih]
        tauto

theorem keysNodup_putVal (k : String) (v : β) (l : List (String × β))
    (hnd : keysNodup l) : keysNodup (putVal k v l) := by
  induction l with
  | nil => simp [keysNodup, putVal]
  | cons p rest ih =>
      obtain ⟨k', v'⟩ := p
      rw [keysNodup, List.map_cons, List.nodup_cons] at hnd
      by_cases h : k' = k
      · subst h
        have hput : putVal k' v ((k', v') :: rest) = (k', v) :: rest := by
          simp [putVal]
        rw [keysNodup, hput, List.map_cons, List.nodup_cons]
        exact hnd
      · have h2 := ih hnd.2
        rw [keysNodup]
        simp only [putVal, if_neg h, List.map_cons, List.nodup_cons]
        refine ⟨?_, h2⟩
        intro hmem
        rcases (mem_keys_putVal k' k v rest).mp hmem with h3 | h3
        · exact h h3
        · exact hnd.1 h3

/-! Lemmas about notify, commit, set and fireTimer. -/

theorem notify_eq (st : SMState) (k : String) (v : SetVal) :
    notify st k v = ((findVal k st.subscribers).getD []).map (fun h => Ev.note h v) := by
  unfold notify
  cases h : findVal k st.subscribers <;> simp [h]

theorem filter_note_map (hs : List Nat) (v : SetVal) :
    (hs.map (fun h => Ev.note h v)).filter Ev.isNote = hs.map (fun h => Ev.note h v) := by
  induction hs with
  | nil => simp
  | cons a t ih => simp [List.filter, Ev.isNote, ih]

theorem commit_subscribers (st : SMState) (k : String) (v : SetVal) :
    (commit st k v).1.subscribers = st.subscribers := by
  unfold commit
  cases hs : stringifyE v with
  | error e => simp
  | ok raw =>
      unfold setItem
      by_cases hw : st.storage.writeFails <;> simp [hw]

theorem commit_timers (st : SMState) (k : String) (v : SetVal) :
    (commit st k v).1.timers = st.timers := by
  unfold commit
  cases hs : stringifyE v with
  | error e => simp
  | ok raw =>
      unfold setItem
      by_cases hw : st.storage.writeFails <;> simp [hw]

theorem commit_filter_note (st : SMState) (k : String) (v : SetVal) :
    (commit st k v).2.filter Ev.isNote
      = ((findVal k st.subscribers).getD []).map (fun h => Ev.note h v) := by
  unfold commit
  cases hs : stringifyE v with
  | error e => simp [List.filter, Ev.isNote, notify_eq, filter_note_map]
  | ok raw =>
      unfold setItem
      by_cases hw : st.storage.writeFails
      · simp [hw, List.filter, Ev.isNote, notify_eq, filter_note_map]
      · simp [hw, notify_eq, filter_note_map]

theorem commit_writeFail_snd (st : SMState) (k : String) (v : SetVal)
    (hw : st.storage.writeFails = true) :
    (commit st k v).2 = Ev.warnWrite ::
      ((findVal k st.subscribers).getD []).map (fun h => Ev.note h v) := by
  unfold commit
  cases hs : stringifyE v with
  | error e => simp [notify_eq]
  | ok raw => simp [setItem, hw, notify_eq]

theorem commit_cyclic (st : SMState) (k : String) :
    commit st k SetVal.cyclic
      = (st, Ev.warnWrite ::
          ((findVal k st.subscribers).getD []).map (fun h => Ev.note h SetVal.cyclic)) := by
  unfold commit
  simp [stringifyE, notify_eq]

theorem set_zero (st : SMState) (k : String) (v : SetVal) :
    SM.set st k v 0 = commit st k v := rfl

theorem set_pos (st : SMState) (k : String) (v : SetVal) (d : Nat) (hd : d ≠ 0) :
    SM.set st k v d = ({ st with timers := putVal k v st.timers }, []) := by
  unfold SM.set
  rw [if_neg hd]

theorem fireTimer_snd (st : SMState) (k : String) (pv : SetVal)
    (h : findVal k st.timers = some pv) :
    (fireTimer st k).2 = (commit st k pv).2 := by
  unfold fireTimer
  rw [h]

/-! Claim theorems. -/

/-- C4: for every key and fallback, `get` returns the JSON-parsed stored
value when the physical key is present with valid JSON, and returns exactly
the supplied fallback (the very value, of arbitrary type `α`) when the key
is absent, when storage access throws (`readFails`), or when the stored
value is malformed.  `get` is a total function in this embedding (the source
wraps every failing operation in try/catch, so it never throws) and takes
the state only as an argument, never returning a modified one. -/
theorem C4_get_fallback_contract {α : Type} (st : SMState) (k : String) (fb : α)
    (v : JsonVal) (s : String) :
    (st.storage.readFails = false →
      findVal (buildKey k) st.storage.items = some (Raw.good v) →
      SM.get st k fb = Sum.inl v) ∧
    (st.storage.readFails = true → SM.get st k fb = Sum.inr fb) ∧
    (st.storage.readFails = false →
      findVal (buildKey k) st.storage.items = none → SM.get st k fb = Sum.inr fb) ∧
    (st.storage.readFails = false →
      findVal (buildKey k) st.storage.items = some (Raw.bad s) →
      SM.get st k fb = Sum.inr fb) := by
  refine ⟨?_, ?_, ?_, ?_⟩
  · intro h1 h2
    simp [SM.get, getItem, h1, h2, Raw.truthy, parseJson]
  · intro h1
    simp [SM.get, getItem, h1]
  · intro h1 h2
    simp [SM.get, getItem, h1, h2]
  · intro h1 h2
    by_cases he : s.isEmpty <;>
      simp [SM.get, getItem, h1, h2, Raw.truthy, parseJson, he]

/-- Witness for C4 at concrete states: a stored JSON number is read back,
and disabled storage, an absent key and a malformed value each yield the
fallback. -/
theorem C4_witness :
    SM.get sampleStored "k" (0 : Nat) = Sum.inl (JsonVal.num 5) ∧
    SM.get sampleReadFail "k" (0 : Nat) = Sum.inr 0 ∧
    SM.get sampleEmpty "nope" (0 : Nat) = Sum.inr 0 ∧
    SM.get sampleBad "k" (0 : Nat) = Sum.inr 0 := by
  refine ⟨?_, ?_, ?_, ?_⟩
  · exact (C4_get_fallback_contract sampleStored "k" 0 (JsonVal.num 5) "").1 rfl rfl
  · exact (C4_get_fallback_contract sampleReadFail "k" 0 JsonVal.null "").2.1 rfl
  · exact (C4_get_fallback_contract sampleEmpty "nope" 0 JsonVal.null "").2.2.1 rfl rfl
  · exact (C4_get_fallback_contract sampleBad "k" 0 JsonVal.null "oops").2.2.2 rfl rfl

/-- C5: on working storage, a debounce-0 `set` of a JSON-serialisable value
followed by `get` on the same key returns that value, for every prior state,
key and fallback. -/
theorem C5_roundtrip {α : Type} (st : SMState) (k : String) (v : JsonVal) (fb : α)
    (hr : st.storage.readFails = false) (hw : st.storage.writeFails = false) :
    SM.get (SM.set st k (SetVal.ser v) 0).1 k fb = Sum.inl v := by
  rw [set_zero]
  unfold commit
  simp [stringifyE, setItem, hw, SM.get, getItem, hr, findVal_putVal_self,
    Raw.truthy, parseJson]

/-- Witness for C5: the spec's own scenario, writing the string `dark` under
`theme` with debounce 0 and reading it back past a numeric fallback. -/
theorem C5_witness :
    SM.get (SM.set sampleEmpty "theme" (SetVal.ser (JsonVal.str "dark")) 0).1 "theme"
      (42 : Nat) = Sum.inl (JsonVal.str "dark") :=
  C5_roundtrip sampleEmpty "theme" (JsonVal.str "dark") 42 rfl rfl

/-- C8: while a debounced write is pending (any non-zero debounce) the
externally visible state is unchanged: the physical storage is untouched, no
event — in particular no subscriber invocation — is emitted, and `get` on
any key returns exactly what it returned before the `set`. -/
theorem C8_pending_invisible {α : Type} (st : SMState) (k q : String) (v : SetVal)
    (d : Nat) (fb : α) (hd : d ≠ 0) :
    (SM.set st k v d).1.storage = st.storage ∧
    (SM.set st k v d).2 = [] ∧
    SM.get (SM.set st k v d).1 q fb = SM.get st q fb := by
  rw [set_pos st k v d hd]
  exact ⟨rfl, rfl, rfl⟩

/-- Witness for C8: a debounced overwrite of a committed value leaves the
storage, the event log and the `get` result unchanged. -/
theorem C8_witness :
    (SM.set sampleStored "k" (SetVal.ser (JsonVal.num 9)) 180).1.storage
        = sampleStored.storage ∧
    (SM.set sampleStored "k" (SetVal.ser (JsonVal.num 9)) 180).2 = [] ∧
    SM.get (SM.set sampleStored "k" (SetVal.ser (JsonVal.num 9)) 180).1 "k" (0 : Nat)
        = SM.get sampleStored "k" (0 : Nat) :=
  C8_pending_invisible sampleStored "k" "k" (SetVal.ser (JsonVal.num 9)) 180 0
    (by decide)

/-- C10 (amended): a non-serialisable value on the debounce-0 path does not
propagate a serialisation error to the caller.  JSON.stringify throws inside
the try block of `commit`, so the error is caught and logged as the generic
storage-write warning, the state (storage included) is left unchanged, and
the subscribers are still notified with the non-serialisable value. -/
theorem C10_amended_caught (st : SMState) (k : String) :
    SM.set st k SetVal.cyclic 0 = commit st k SetVal.cyclic ∧
    (commit st k SetVal.cyclic).1 = st ∧
    (commit st k SetVal.cyclic).2 =
      Ev.warnWrite ::
        ((findVal k st.subscribers).getD []).map (fun h => Ev.note h SetVal.cyclic) := by
  refine ⟨set_zero .., ?_, ?_⟩
  · rw [commit_cyclic]
  · rw [commit_cyclic]

/-- Counterexample to C10 as stated: at a concrete state with one subscriber
on key `k`, a debounce-0 `set` of a non-serialisable value returns normally
— the catch block logs the warning (`warnWrite` is emitted, i.e. the error
was caught, not propagated) and execution continues into the subscriber
notification; no exception reaches the caller. -/
theorem C10_cex :
    (SM.set sampleSub "k" SetVal.cyclic 0).1 = sampleSub ∧
    (SM.set sampleSub "k" SetVal.cyclic 0).2
      = [Ev.warnWrite, Ev.note 7 SetVal.cyclic] :=
  ⟨rfl, rfl⟩

/-- C6: every commit — reached from a fired debounce timer, a debounce-0
`set`, or `hydrate` (which calls `commit` directly, cf. `C9`) — invokes
exactly the subscribers registered for the key, in registration order, with
the committed logical value; this holds whether or not the physical write
succeeds, and when the write fails the error is logged (the warning event)
rather than thrown, with the notification still following it. -/
theorem C6_commit_notifies (st : SMState) (k : String) (v pv : SetVal) :
    ((commit st k v).2.filter Ev.isNote
        = ((findVal k st.subscribers).getD []).map (fun h => Ev.note h v)) ∧
    (SM.set st k v 0 = commit st k v) ∧
    (findVal k st.timers = some pv → (fireTimer st k).2 = (commit st k pv).2) ∧
    (st.storage.writeFails = true →
      (commit st k v).2 = Ev.warnWrite ::
        ((findVal k st.subscribers).getD []).map (fun h => Ev.note h v)) :=
  ⟨commit_filter_note st k v, set_zero st k v,
    fun h => fireTimer_snd st k pv h,
    fun hw => commit_writeFail_snd st k v hw⟩

/-- Witness for C6 at a state with failing storage, one subscriber and a
pending timer: the fired timer emits exactly the commit events, and those
are the caught-write warning followed by the subscriber notification. -/
theorem C6_witness :
    (fireTimer sampleWriteFail "k").2
        = (commit sampleWriteFail "k" (SetVal.ser JsonVal.null)).2 ∧
    (commit sampleWriteFail "k" (SetVal.ser JsonVal.null)).2
        = [Ev.warnWrite, Ev.note 7 (SetVal.ser JsonVal.null)] := by
  have h := C6_commit_notifies sampleWriteFail "k" (SetVal.ser JsonVal.null)
    (SetVal.ser JsonVal.null)
  exact ⟨h.2.2.1 rfl, (h.2.2.2 rfl).trans rfl⟩

theorem subscribe_subscribers_none (st : SMState) (k : String) (h : Nat)
    (hf : findVal k st.subscribers = none) :
    (subscribe st k h).subscribers = putVal k [h] st.subscribers := by
  simp only [subscribe, hf, Option.getD_none, List.nil_append]

theorem subscribe_subscribers_some (st : SMState) (k : String) (h : Nat)
    (l : List Nat) (hf : findVal k st.subscribers = some l) :
    (subscribe st k h).subscribers = putVal k (l ++ [h]) st.subscribers := by
  simp only [subscribe, hf, Option.getD_some]

theorem unsubscribe_subscribers_some (st : SMState) (k : String) (h : Nat)
    (l : List Nat) (hf : findVal k st.subscribers = some l) :
    (unsubscribe st k h).subscribers =
      if (l.filter (fun f => decide (f ≠ h))).isEmpty then delVal k st.subscribers
      else putVal k (l.filter (fun f => decide (f ≠ h))) st.subscribers := by
  simp only [unsubscribe, hf, Option.getD_some]
  by_cases hc : (l.filter (fun f => decide (f ≠ h))).isEmpty
  · rw [if_pos hc, if_pos hc]
  · rw [if_neg hc, if_neg hc]

/-- C7 (amended): for two subscriptions on the same key with distinct
handler functions, one unsubscribe removes exactly that handler — the other
is still invoked on the next commit — and removing the last handler deletes
the key entry outright (no leaked empty lists).  The exception forced by the
code is the same-function case: `unsubscribe` filters by reference equality,
so registering one function twice and unsubscribing once removes both
copies (last conjunct; counterexample `C7_cex`). -/
theorem C7_amended_isolation (st : SMState) (k : String) (h₁ h₂ : Nat) (v : SetVal)
    (hne : h₁ ≠ h₂) (h0 : findVal k st.subscribers = none) :
    (findVal k (unsubscribe (subscribe (subscribe st k h₁) k h₂) k h₁).subscribers
        = some [h₂]) ∧
    ((commit (unsubscribe (subscribe (subscribe st k h₁) k h₂) k h₁) k v).2.filter
        Ev.isNote = [Ev.note h₂ v]) ∧
    (findVal k (unsubscribe (unsubscribe (subscribe (subscribe st k h₁) k h₂) k h₁)
        k h₂).subscribers = none) ∧
    (findVal k (unsubscribe (subscribe (subscribe st k h₁) k h₁) k h₁).subscribers
        = none) := by
  have hne2 : h₂ ≠ h₁ := Ne.symm hne
  have q1 : (subscribe st k h₁).subscribers = putVal k [h₁] st.subscribers :=
    subscribe_subscribers_none st k h₁ h0
  have f1 : findVal k (subscribe st k h₁).subscribers = some [h₁] := by
    rw [q1]
    exact findVal_putVal_self ..
  have q2 : (subscribe (subscribe st k h₁) k h₂).subscribers
      = putVal k [h₁, h₂] (subscribe st k h₁).subscribers :=
    subscribe_subscribers_some (subscribe st k h₁) k h₂ [h₁] f1
  have f2 : findVal k (subscribe (subscribe st k h₁) k h₂).subscribers
      = some [h₁, h₂] := by
    rw [q2]
    exact findVal_putVal_self ..
  have hfil : List.filter (fun f => decide (f ≠ h₁)) [h₁, h₂] = [h₂] := by
    simp [hne2]
  have q3 : (unsubscribe (subscribe (subscribe st k h₁) k h₂) k h₁).subscribers
      = putVal k [h₂] (subscribe (subscribe st k h₁) k h₂).subscribers := by
    rw [unsubscribe_subscribers_some _ k h₁ [h₁, h₂] f2, hfil]
    simp
  have f3 : findVal k (unsubscribe (subscribe (subscribe st k h₁) k h₂) k
      h₁).subscribers = some [h₂] := by
    rw [q3]
    exact findVal_putVal_self ..
  have hfil2 : List.filter (fun f => decide (f ≠ h₂)) [h₂] = [] := by
    simp
  have q4 : (unsubscribe (unsubscribe (subscribe (subscribe st k h₁) k h₂) k h₁)
      k h₂).subscribers
      = delVal k (unsubscribe (subscribe (subscribe st k h₁) k h₂) k h₁).subscribers := by
    rw [unsubscribe_subscribers_some _ k h₂ [h₂] f3, hfil2]
    simp
  have q1b : (subscribe (subscribe st k h₁) k h₁).subscribers
      = putVal k [h₁, h₁] (subscribe st k h₁).subscribers :=
    subscribe_subscribers_some (subscribe st k h₁) k h₁ [h₁] f1
  have f2b : findVal k (subscribe (subscribe st k h₁) k h₁).subscribers
      = some [h₁, h₁] := by
    rw [q1b]
    exact findVal_putVal_self ..
  have hfil3 : List.filter (fun f => decide (f ≠ h₁)) [h₁, h₁] = [] := by
    simp
  have q5 : (unsubscribe (subscribe (subscribe st k h₁) k h₁) k h₁).subscribers
      = delVal k (subscribe (subscribe st k h₁) k h₁).subscribers := by
    rw [unsubscribe_subscribers_some _ k h₁ [h₁, h₁] f2b, hfil3]
    simp
  refine ⟨f3, ?_, ?_, ?_⟩
  · rw [commit_filter_note, f3]
    rfl
  · rw [q4]
    exact findVal_delVal_self ..
  · rw [q5]
    exact findVal_delVal_self ..

/-- Witness for C7 at a fresh state with handler tokens 1 and 2. -/
theorem C7_witness :
    (findVal "k" (unsubscribe (subscribe (subscribe sampleEmpty "k" 1) "k" 2) "k"
        1).subscribers = some [2]) ∧
    ((commit (unsubscribe (subscribe (subscribe sampleEmpty "k" 1) "k" 2) "k" 1) "k"
        (SetVal.ser JsonVal.null)).2.filter Ev.isNote
        = [Ev.note 2 (SetVal.ser JsonVal.null)]) ∧
    (findVal "k" (unsubscribe (unsubscribe (subscribe (subscribe sampleEmpty "k" 1)
        "k" 2) "k" 1) "k" 2).subscribers = none) ∧
    (findVal "k" (unsubscribe (subscribe (subscribe sampleEmpty "k" 1) "k" 1) "k"
        1).subscribers = none) :=
  C7_amended_isolation sampleEmpty "k" 1 2 (SetVal.ser JsonVal.null) (by decide) rfl

/-- Counterexample to C7 as stated: the claim covers the case where both
subscriptions use the same handler function; for that case, because the
unsubscribe closure filters the list by reference inequality with the
handler, calling one unsubscribe removes both copies — the registry entry
for the key disappears entirely and the remaining subscription is not
invoked on the next commit (no events at all). -/
theorem C7_cex :
    (unsubscribe (subscribe (subscribe sampleEmpty "k" 5) "k" 5) "k" 5).subscribers
        = [] ∧
    (commit (unsubscribe (subscribe (subscribe sampleEmpty "k" 5) "k" 5) "k" 5) "k"
        (SetVal.ser (JsonVal.num 1))).2 = [] :=
  ⟨rfl, rfl⟩

/-! String and snapshot lemmas. -/

theorem strExt (a b : String) (h : a.data = b.data) : a = b := by
  cases a
  cases b
  exact congrArg String.mk h

theorem strData_append (a b : String) : (a ++ b).data = a.data ++ b.data := rfl

theorem dropFirstOcc_append (pat rest : List Char) :
    dropFirstOcc pat (pat ++ rest) = rest := by
  cases hp : pat ++ rest with
  | nil =>
      obtain ⟨h1, h2⟩ := List.append_eq_nil.mp hp
      subst h1
      subst h2
      rfl
  | cons c l =>
      have hpre : pat.isPrefixOf (c :: l) = true := by
        rw [← hp, List.isPrefixOf_iff_prefix]
        exact List.prefix_append pat rest
      show (if pat.isPrefixOf (c :: l) = true then (c :: l).drop pat.length
            else c :: dropFirstOcc pat l) = rest
      rw [if_pos hpre, ← hp, List.drop_left]

theorem jsReplaceFirst_strip (lk : String) :
    jsReplaceFirst (pfxColon ++ lk) pfxColon = lk := by
  unfold jsReplaceFirst
  rw [strData_append, dropFirstOcc_append]

theorem strStarts_colon (lk : String) : strStarts (pfxColon ++ lk) pfx = true := by
  unfold strStarts
  rw [List.isPrefixOf_iff_prefix, strData_append]
  have hd : pfxColon.data = pfx.data ++ [':'] := rfl
  rw [hd, List.append_assoc]
  exact List.prefix_append ..

theorem pfxColon_append_inj (a b : String) (h : pfxColon ++ a = pfxColon ++ b) :
    a = b := by
  have hd : pfxColon.data ++ a.data = pfxColon.data ++ b.data := by
    rw [← strData_append, ← strData_append, h]
  exact strExt a b (List.append_cancel_left hd)

theorem snapGo_ok (items : List (String × Raw)) (ks : List String) :
    ∀ (acc : List (String × JsonVal)),
    (∀ k ∈ ks, ∀ r, findVal k items = some r → ∃ v, parseJson r = some v) →
    ∃ out, snapGo items ks acc = .ok out := by
  induction ks with
  | nil =>
      intro acc h
      exact ⟨acc, rfl⟩
  | cons k ks ih =>
      intro acc h
      cases hf : findVal k items with
      | none =>
          have := ih (putVal (jsReplaceFirst k pfxColon) JsonVal.null acc)
            (fun k2 hk2 => h k2 (List.mem_cons_of_mem _ hk2))
          simpa [snapGo, hf] using this
      | some r =>
          obtain ⟨v, hv⟩ := h k (List.mem_cons_self _ _) r hf
          have := ih (putVal (jsReplaceFirst k pfxColon) v acc)
            (fun k2 hk2 => h k2 (List.mem_cons_of_mem _ hk2))
          simpa [snapGo, hf, hv] using this

theorem snapGo_proper (items : List (String × Raw)) (ks : List String) :
    ∀ (acc : List (String × JsonVal)),
    (∀ k ∈ ks, ∃ lk v, k = pfxColon ++ lk ∧ findVal k items = some (Raw.good v)) →
    (ks.map (fun k => jsReplaceFirst k pfxColon)).Nodup →
    (∀ k ∈ ks, findVal (jsReplaceFirst k pfxColon) acc = none) →
    snapGo items ks acc
      = .ok (acc ++ ks.map (fun k => (jsReplaceFirst k pfxColon, valAt items k))) := by
  induction ks with
  | nil =>
      intro acc _ _ _
      simp [snapGo]
  | cons k ks ih =>
      intro acc hform hnd hacc
      obtain ⟨lk, v, hk, hfind⟩ := hform k (List.mem_cons_self _ _)
      have hval : valAt items k = v := by
        unfold valAt
        rw [hfind]
      have hfresh : findVal (jsReplaceFirst k pfxColon) acc = none :=
        hacc k (List.mem_cons_self _ _)
      have hput : putVal (jsReplaceFirst k pfxColon) v acc
          = acc ++ [(jsReplaceFirst k pfxColon, v)] :=
        putVal_fresh _ _ _ hfresh
      rw [List.map_cons, List.nodup_cons] at hnd
      have hstep : snapGo items (k :: ks) acc
          = snapGo items ks (acc ++ [(jsReplaceFirst k pfxColon, v)]) := by
        simp [snapGo, hfind, parseJson, hput]
      rw [hstep, ih (acc ++ [(jsReplaceFirst k pfxColon, v)])
        (fun k2 hk2 => hform k2 (List.mem_cons_of_mem _ hk2)) hnd.2 ?fresh]
      · rw [List.map_cons, hval, List.append_assoc, List.singleton_append]
      case fresh =>
        intro k2 hk2
        have hne : jsReplaceFirst k2 pfxColon ≠ jsReplaceFirst k pfxColon := by
          intro he
          exact hnd.1 (he ▸ List.mem_map.mpr ⟨k2, hk2, rfl⟩)
        have hne2 : jsReplaceFirst k pfxColon ≠ jsReplaceFirst k2 pfxColon :=
          Ne.symm hne
        rw [findVal_append_none _ _ _ (hacc k2 (List.mem_cons_of_mem _ hk2))]
        simp [findVal, hne2]

/-- C3 (amended): `snapshot` does not guard its JSON parsing.  It returns
normally exactly on stores where storage is readable and every value under a
key passing the bare-prefix filter parses as JSON; a malformed namespaced
value makes the parse error propagate out of `snapshot` to the caller
(counterexample `C3_cex`), unlike `get`, which catches it. -/
theorem C3_amended_snapshot_throws (st : SMState)
    (hrf : st.storage.readFails = false)
    (hparse : ∀ p ∈ st.storage.items, strStarts p.1 pfx = true →
        ∃ v, parseJson p.2 = some v) :
    ∃ out, snapshot st = .ok out := by
  unfold snapshot
  rw [hrf]
  simp only [Bool.false_eq_true, if_false]
  refine snapGo_ok st.storage.items _ [] ?_
  intro k hk r hfind
  have hk2 := List.mem_filter.mp hk
  exact hparse (k, r) (findVal_mem k r _ hfind) (by simpa using hk2.2)

/-- Witness for C3 (amended) at a one-key store with a well-formed value. -/
theorem C3_witness : ∃ out, snapshot sampleProper = Except.ok out := by
  refine C3_amended_snapshot_throws sampleProper rfl ?_
  intro p hp hs
  simp only [sampleProper, List.mem_singleton] at hp
  subst hp
  exact ⟨JsonVal.bool true, rfl⟩

/-- Counterexample to C3 as stated: on a store holding one malformed value
under its own namespace, `snapshot` throws (the embedding returns
`Except.error`, the unguarded JSON.parse exception), rather than handling
the malformed value internally. -/
theorem C3_cex : snapshot sampleBad = .error () := rfl

/-- C2 (amended): on a storage state whose physical keys are all of the
proper prefix-colon form with parseable values — exactly the keys the store
itself writes — `snapshot` returns precisely those entries, stripping the
first occurrence of the prefix-colon string from each physical key to
recover the logical key and parsing each stored value.  The amendment
forced by the code (counterexample `C2_cex`): the enumeration filters with
startsWith on the bare prefix, not the prefix-colon form, so a foreign
physical key that merely begins with the prefix string also appears in the
result. -/
theorem C2_amended_snapshot_domain (st : SMState)
    (hrf : st.storage.readFails = false)
    (hnd : keysNodup st.storage.items)
    (hform : ∀ p ∈ st.storage.items, ∃ lk, p.1 = pfxColon ++ lk)
    (hgood : ∀ p ∈ st.storage.items, ∃ v, p.2 = Raw.good v) :
    snapshot st = .ok (st.storage.items.map
      (fun p => (jsReplaceFirst p.1 pfxColon, rawVal p.2))) := by
  have hnd2 : (st.storage.items.map Prod.fst).Nodup := hnd
  unfold snapshot
  rw [hrf]
  simp only [Bool.false_eq_true, if_false]
  have hfilter : (st.storage.items.map Prod.fst).filter (fun k => strStarts k pfx)
      = st.storage.items.map Prod.fst := by
    apply List.filter_eq_self.mpr
    intro k hk
    obtain ⟨⟨a, b⟩, hp, rfl⟩ := List.mem_map.mp hk
    obtain ⟨lk, hlk⟩ := hform (a, b) hp
    simp only at hlk
    rw [hlk]
    exact strStarts_colon lk
  rw [hfilter]
  rw [snapGo_proper st.storage.items (st.storage.items.map Prod.fst) []
    ?h1 ?h2 ?h3]
  · rw [List.nil_append, List.map_map]
    apply congrArg
    apply List.map_congr_left
    intro p hp
    obtain ⟨a, b⟩ := p
    obtain ⟨v, hv⟩ := hgood (a, b) hp
    have hf : findVal a st.storage.items = some b :=
      findVal_of_mem_nodup a b _ hnd hp
    show (jsReplaceFirst a pfxColon, valAt st.storage.items a)
        = (jsReplaceFirst a pfxColon, rawVal b)
    rw [Prod.mk.injEq]
    refine ⟨rfl, ?_⟩
    unfold valAt
    rw [hf]
    simp only at hv
    rw [hv]
    rfl
  case h1 =>
    intro k hk
    obtain ⟨⟨a, b⟩, hp, rfl⟩ := List.mem_map.mp hk
    obtain ⟨lk, hlk⟩ := hform (a, b) hp
    obtain ⟨v, hv⟩ := hgood (a, b) hp
    simp only at hlk hv
    refine ⟨lk, v, hlk, ?_⟩
    have hf : findVal a st.storage.items = some b :=
      findVal_of_mem_nodup a b _ hnd hp
    rw [hf, hv]
  case h2 =>
    apply List.Nodup.map_on _ hnd2
    intro x hx y hy hxy
    obtain ⟨⟨a, b⟩, hpa, rfl⟩ := List.mem_map.mp hx
    obtain ⟨⟨c, d⟩, hpc, rfl⟩ := List.mem_map.mp hy
    obtain ⟨lka, hla⟩ := hform (a, b) hpa
    obtain ⟨lkc, hlc⟩ := hform (c, d) hpc
    simp only at hla hlc hxy ⊢
    rw [hla, hlc] at hxy ⊢
    rw [jsReplaceFirst_strip, jsReplaceFirst_strip] at hxy
    rw [hxy]
  case h3 =>
    intro k _
    rfl

/-- Witness for C2 (amended) at a one-key proper store: the physical key
has its prefix stripped and the value parsed. -/
theorem C2_witness : snapshot sampleProper = Except.ok [("a", JsonVal.bool true)] := by
  have h := C2_amended_snapshot_domain sampleProper rfl ?nd ?form ?good
  · exact h.trans rfl
  case nd => simp [keysNodup, sampleProper]
  case form =>
    intro p hp
    simp only [sampleProper, List.mem_singleton] at hp
    subst hp
    exact ⟨"a", rfl⟩
  case good =>
    intro p hp
    simp only [sampleProper, List.mem_singleton] at hp
    subst hp
    exact ⟨JsonVal.bool true, rfl⟩

/-- Counterexample to C2 as stated: a foreign physical key that begins with
the bare prefix string but is not of the prefix-colon form — it does not
even extend the prefix-colon string — appears in the snapshot result, with
nothing stripped, because the filter tests startsWith on the bare prefix. -/
theorem C2_cex :
    snapshot sampleForeign = Except.ok [("arc-raiders-trackerX", JsonVal.num 1)] ∧
    strStarts "arc-raiders-trackerX" pfxColon = false :=
  ⟨rfl, rfl⟩

/-! Hydrate lemmas. -/

theorem hydrate_shift (data : List (String × SetVal)) :
    ∀ (st : SMState) (e : List Ev),
    data.foldl (fun acc kv =>
        let r := commit acc.1 kv.1 kv.2
        (r.1, acc.2 ++ r.2)) (st, e)
      = ((hydrate st data).1, e ++ (hydrate st data).2) := by
  induction data with
  | nil =>
      intro st e
      simp [hydrate]
  | cons kv rest ih =>
      intro st e
      obtain ⟨k, v⟩ := kv
      simp only [hydrate, List.foldl_cons, List.nil_append]
      rw [ih, ih]
      simp [List.append_assoc]

theorem hydrate_cons (st : SMState) (k : String) (v : SetVal)
    (rest : List (String × SetVal)) :
    hydrate st ((k, v) :: rest)
      = ((hydrate (commit st k v).1 rest).1,
         (commit st k v).2 ++ (hydrate (commit st k v).1 rest).2) := by
  simp only [hydrate, List.foldl_cons, List.nil_append]
  exact hydrate_shift rest (commit st k v).1 (commit st k v).2

theorem hydrate_notes (data : List (String × SetVal)) :
    ∀ (st : SMState),
    (hydrate st data).2.filter Ev.isNote
      = data.flatMap (fun kv => ((findVal kv.1 st.subscribers).getD []).map
          (fun h => Ev.note h kv.2)) := by
  induction data with
  | nil =>
      intro st
      simp [hydrate]
  | cons kv rest ih =>
      intro st
      obtain ⟨k, v⟩ := kv
      rw [hydrate_cons, List.filter_append, commit_filter_note, ih,
        commit_subscribers]
      simp

/-- C9: `hydrate` commits every entry of the input mapping in iteration
order, each through the same path as a debounce-0 `set` (first conjunct,
a definitional refinement), and the subscriber notifications it emits are
exactly, in order, each key's registered handlers applied to that key's
value — for every storage state, including one whose every physical write
fails (`writeFails = true`), so a storage failure committing one key never
prevents the remaining keys from being committed and notified. -/
theorem C9_hydrate_commits (st : SMState) (data : List (String × SetVal)) :
    (hydrate st data = data.foldl (fun acc kv =>
        let r := SM.set acc.1 kv.1 kv.2 0
        (r.1, acc.2 ++ r.2)) (st, [])) ∧
    ((hydrate st data).2.filter Ev.isNote
      = data.flatMap (fun kv => ((findVal kv.1 st.subscribers).getD []).map
          (fun h => Ev.note h kv.2))) :=
  ⟨rfl, hydrate_notes data st⟩

/-- C1 (amended): a new debounced `set` on a key with a pending write
cancels and replaces the pending timer (the table keeps at most one entry
per key and afterwards holds the new value), and while pending nothing is
written or notified; but a `set` with debounce 0 while a write is pending
commits the new value immediately WITHOUT cancelling the pending write —
the timer table is left untouched, so the old pending write remains and on
firing commits and notifies the old value (counterexample `C1_cex`). -/
theorem C1_amended_debounce (st : SMState) (k : String) (v₁ v₂ : SetVal)
    (d₁ d₂ : Nat) (hd₁ : d₁ ≠ 0) (hd₂ : d₂ ≠ 0) :
    (findVal k (SM.set st k v₁ d₁).1.timers = some v₁) ∧
    ((SM.set st k v₁ d₁).2 = [] ∧ (SM.set st k v₁ d₁).1.storage = st.storage) ∧
    (findVal k (SM.set (SM.set st k v₁ d₁).1 k v₂ d₂).1.timers = some v₂) ∧
    (keysNodup st.timers → keysNodup (SM.set st k v₁ d₁).1.timers) ∧
    ((fireTimer (SM.set (SM.set st k v₁ d₁).1 k v₂ d₂).1 k).2
        = (commit (SM.set (SM.set st k v₁ d₁).1 k v₂ d₂).1 k v₂).2) ∧
    (SM.set st k v₂ 0 = commit st k v₂) ∧
    ((SM.set st k v₂ 0).1.timers = st.timers) := by
  have e1 := set_pos st k v₁ d₁ hd₁
  have e2 := set_pos (SM.set st k v₁ d₁).1 k v₂ d₂ hd₂
  refine ⟨?_, ⟨?_, ?_⟩, ?_, ?_, ?_, set_zero st k v₂, ?_⟩
  · rw [e1]
    exact findVal_putVal_self ..
  · rw [e1]
  · rw [e1]
  · rw [e2]
    exact findVal_putVal_self ..
  · intro hn
    rw [e1]
    exact keysNodup_putVal _ _ _ hn
  · apply fireTimer_snd
    rw [e2]
    exact findVal_putVal_self ..
  · rw [set_zero]
    exact commit_timers st k v₂

/-- Witness for C1 (amended): concrete debounced writes on `sampleSub`
with delays 100 and 50; the replacement leaves the new pending value and
the first debounced set emits nothing. -/
theorem C1_witness :
    (findVal "k" (SM.set (SM.set sampleSub "k" (SetVal.ser (JsonVal.num 1)) 100).1
        "k" (SetVal.ser (JsonVal.num 2)) 50).1.timers
      = some (SetVal.ser (JsonVal.num 2))) ∧
    (SM.set sampleSub "k" (SetVal.ser (JsonVal.num 1)) 100).2 = [] :=
  ⟨(C1_amended_debounce sampleSub "k" (SetVal.ser (JsonVal.num 1))
      (SetVal.ser (JsonVal.num 2)) 100 50 (by decide) (by decide)).2.2.1,
   (C1_amended_debounce sampleSub "k" (SetVal.ser (JsonVal.num 1))
      (SetVal.ser (JsonVal.num 2)) 100 50 (by decide) (by decide)).2.1.1⟩

/-- Counterexample to C1 as stated: schedule `set("k", 1, debounce 100)`,
then `set("k", 2, debounce 0)` while it is pending.  The debounce-0 branch
commits 2 but does not clear the pending timer: a pending write for the key
remains afterwards (first conjunct), and when that timer fires it commits
and notifies the old pending value 1 (second conjunct), leaving 1 — not the
most recent value 2 — in storage (third conjunct). -/
theorem C1_cex :
    ((SM.set (SM.set sampleSub "k" (SetVal.ser (JsonVal.num 1)) 100).1 "k"
        (SetVal.ser (JsonVal.num 2)) 0).1.timers
      = [("k", SetVal.ser (JsonVal.num 1))]) ∧
    ((fireTimer (SM.set (SM.set sampleSub "k" (SetVal.ser (JsonVal.num 1)) 100).1
        "k" (SetVal.ser (JsonVal.num 2)) 0).1 "k").2
      = [Ev.note 7 (SetVal.ser (JsonVal.num 1))]) ∧
    (SM.get (fireTimer (SM.set (SM.set sampleSub "k" (SetVal.ser (JsonVal.num 1))
        100).1 "k" (SetVal.ser (JsonVal.num 2)) 0).1 "k").1 "k" (0 : Nat)
      = Sum.inl (JsonVal.num 1)) :=
  ⟨rfl, rfl, rfl⟩
